import Mathlib

/-!
Verification development for the chess_coach repository.

The repository delegates chess rules to the external `python-chess` library;
the core under verification is `board_state.py` (session / move resolution),
`engine.py` (engine-result reconciliation) and `heuristics.py` (feature
extraction).  The definitions below embed, faithfully and executably, the
repository's functions together with the fragment of `python-chess`
behaviour they rely on (board representation, move generation and legality,
SAN rendering and parsing, UCI parsing, FEN parsing).  Squares are numbered
as in python-chess: a1 = 0, b1 = 1, ..., h8 = 63; `true` is White.
-/

set_option maxRecDepth 4096

namespace ChessCoach

/-- Piece kinds, mirroring python-chess `PAWN` .. `KING`. -/
inductive PieceKind where
  | pawn | knight | bishop | rook | queen | king
  deriving DecidableEq, Repr

/-- A piece: kind plus colour (`true` = White, as python-chess `WHITE = True`). -/
structure Piece where
  kind : PieceKind
  color : Bool
  deriving DecidableEq, Repr

/-- A move as in python-chess `chess.Move`: origin square, target square,
optional promotion kind.  The null move is `⟨0, 0, none⟩`. -/
structure Move where
  fromSq : Nat
  toSq : Nat
  promo : Option PieceKind
  deriving DecidableEq, Repr

def Move.isNull (m : Move) : Bool :=
  m.fromSq == 0 && m.toSq == 0 && m.promo == none

/-- A full chess position: the fields of a python-chess `Board` that FEN
records (placement by square index, side to move, the four castling
rights, en-passant target, halfmove clock, fullmove number). -/
structure Position where
  placement : List (Option Piece)
  turn : Bool
  castleWK : Bool
  castleWQ : Bool
  castleBK : Bool
  castleBQ : Bool
  ep : Option Nat
  halfmove : Nat
  fullmove : Nat
  deriving DecidableEq, Repr

def pieceAt (b : Position) (sq : Nat) : Option Piece :=
  (b.placement.getD sq none)

def fileOf (sq : Nat) : Nat := sq % 8
def rankOf (sq : Nat) : Nat := sq / 8
def mkSq (f r : Nat) : Nat := r * 8 + f

/-- Square from signed file/rank coordinates, `none` when off the board. -/
def sqFromInts (f r : Int) : Option Nat :=
  if 0 ≤ f ∧ f < 8 ∧ 0 ≤ r ∧ r < 8 then some ((r * 8 + f).toNat) else none

def knightHops : List (Int × Int) :=
  [(1, 2), (2, 1), (2, -1), (1, -2), (-1, -2), (-2, -1), (-2, 1), (-1, 2)]

def kingSteps : List (Int × Int) :=
  [(1, 0), (1, 1), (0, 1), (-1, 1), (-1, 0), (-1, -1), (0, -1), (1, -1)]

def bishopDirs : List (Int × Int) := [(1, 1), (1, -1), (-1, 1), (-1, -1)]
def rookDirs : List (Int × Int) := [(1, 0), (-1, 0), (0, 1), (0, -1)]

/-- Walk a sliding ray from `(f, r)` in direction `(df, dr)`, collecting
attacked squares and stopping at the first occupied square (inclusive). -/
def ray (b : Position) (df dr : Int) : Nat → Int → Int → List Nat
  | 0, _, _ => []
  | fuel + 1, f, r =>
    match sqFromInts (f + df) (r + dr) with
    | none => []
    | some sq =>
      if (pieceAt b sq).isSome then [sq]
      else sq :: ray b df dr fuel (f + df) (r + dr)

/-- Squares attacked by the piece sitting on `sq` (python-chess
`Board.attacks`: own-occupied targets included; pawns attack only their
capture diagonals). -/
def attacksFrom (b : Position) (sq : Nat) : List Nat :=
  match pieceAt b sq with
  | none => []
  | some pc =>
    let f : Int := fileOf sq
    let r : Int := rankOf sq
    let jumps := fun (ds : List (Int × Int)) =>
      ds.filterMap (fun d => sqFromInts (f + d.1) (r + d.2))
    let slides := fun (ds : List (Int × Int)) =>
      ds.flatMap (fun d => ray b d.1 d.2 7 f r)
    match pc.kind with
    | .pawn => jumps (if pc.color then [(-1, 1), (1, 1)] else [(-1, -1), (1, -1)])
    | .knight => jumps knightHops
    | .king => jumps kingSteps
    | .bishop => slides bishopDirs
    | .rook => slides rookDirs
    | .queen => slides (bishopDirs ++ rookDirs)

/-- python-chess `Board.is_attacked_by(color, sq)`. -/
def isAttackedBy (b : Position) (c : Bool) (sq : Nat) : Bool :=
  (List.range 64).any fun s =>
    match pieceAt b s with
    | some pc => pc.color == c && (attacksFrom b s).contains sq
    | none => false

/-- python-chess `Board.attackers(color, sq)` as a square list. -/
def attackersOf (b : Position) (c : Bool) (sq : Nat) : List Nat :=
  (List.range 64).filter fun s =>
    match pieceAt b s with
    | some pc => pc.color == c && (attacksFrom b s).contains sq
    | none => false

/-- Square of the king of colour `c`, if present. -/
def kingOf (b : Position) (c : Bool) : Option Nat :=
  (List.range 64).find? fun s => pieceAt b s == some ⟨.king, c⟩

def inCheckOf (b : Position) (c : Bool) : Bool :=
  match kingOf b c with
  | some k => isAttackedBy b (!c) k
  | none => false

/-- python-chess `Board.is_check()`: the side to move is in check. -/
def isCheck (b : Position) : Bool := inCheckOf b b.turn

def promoKinds : List PieceKind := [.queen, .rook, .bishop, .knight]

/-- Pseudo-legal pawn moves from `sq` (pushes, double pushes, captures,
en-passant captures, promotions). -/
def pawnMovesFrom (b : Position) (sq : Nat) (c : Bool) : List Move :=
  let f : Int := fileOf sq
  let r : Int := rankOf sq
  let dir : Int := if c then 1 else -1
  let startRank : Int := if c then 1 else 6
  let promoRank : Nat := if c then 7 else 0
  let withPromos := fun (t : Nat) =>
    if rankOf t = promoRank then promoKinds.map (fun k => Move.mk sq t (some k))
    else [Move.mk sq t none]
  let pushes :=
    match sqFromInts f (r + dir) with
    | none => []
    | some one =>
      if (pieceAt b one).isNone then
        withPromos one ++
          (if r = startRank then
            match sqFromInts f (r + 2 * dir) with
            | some two => if (pieceAt b two).isNone then [Move.mk sq two none] else []
            | none => []
          else [])
      else []
  let caps := ([-1, 1] : List Int).flatMap fun df =>
    match sqFromInts (f + df) (r + dir) with
    | none => []
    | some t =>
      match pieceAt b t with
      | some q => if q.color = c then [] else withPromos t
      | none => if b.ep = some t then [Move.mk sq t none] else []
  pushes ++ caps

/-- Pseudo-legal castling moves (rights present, king and rook on their
squares, path between them empty); encoded king-to-g/c-file as in
python-chess. -/
def castlingMoves (b : Position) : List Move :=
  let c := b.turn
  let r : Nat := if c then 0 else 7
  let base := r * 8
  let emptyAt := fun (sq : Nat) => (pieceAt b sq).isNone
  let kingHome := pieceAt b (base + 4) == some ⟨.king, c⟩
  let ks :=
    if (if c then b.castleWK else b.castleBK) && kingHome &&
        pieceAt b (base + 7) == some ⟨.rook, c⟩ &&
        emptyAt (base + 5) && emptyAt (base + 6) then
      [Move.mk (base + 4) (base + 6) none]
    else []
  let qs :=
    if (if c then b.castleWQ else b.castleBQ) && kingHome &&
        pieceAt b base == some ⟨.rook, c⟩ &&
        emptyAt (base + 1) && emptyAt (base + 2) && emptyAt (base + 3) then
      [Move.mk (base + 4) (base + 2) none]
    else []
  ks ++ qs

/-- Pseudo-legal moves of the side to move. -/
def pseudoLegalMoves (b : Position) : List Move :=
  ((List.range 64).flatMap fun sq =>
    match pieceAt b sq with
    | some pc =>
      if pc.color = b.turn then
        match pc.kind with
        | .pawn => pawnMovesFrom b sq pc.color
        | _ => (attacksFrom b sq).filterMap fun t =>
            match pieceAt b t with
            | some q => if q.color = b.turn then none else some (Move.mk sq t none)
            | none => some (Move.mk sq t none)
      else []
    | none => []) ++ castlingMoves b

/-- Apply a move to a position, mirroring python-chess `Board.push`:
moves (and possibly promotes) the moving piece, removes en-passant
victims, relocates the rook on castling, updates castling rights,
en-passant target, the clocks and the side to move. -/
def applyMove (b : Position) (m : Move) : Position :=
  let pc := pieceAt b m.fromSq
  let isPawn := pc == some ⟨.pawn, b.turn⟩
  let isKing := pc == some ⟨.king, b.turn⟩
  let moved : Option Piece :=
    match pc, m.promo with
    | some p, some k => some ⟨k, p.color⟩
    | _, _ => pc
  let epCapture := isPawn && b.ep == some m.toSq && fileOf m.toSq != fileOf m.fromSq &&
    (pieceAt b m.toSq).isNone
  let isCapture := (pieceAt b m.toSq).isSome || epCapture
  let place0 := b.placement.set m.fromSq none
  let place1 := if epCapture then place0.set (mkSq (fileOf m.toSq) (rankOf m.fromSq)) none
    else place0
  let place2 := place1.set m.toSq moved
  let fTo : Int := fileOf m.toSq
  let fFrom : Int := fileOf m.fromSq
  let place3 :=
    if isKing && fTo - fFrom == 2 then
      (place2.set (mkSq 7 (rankOf m.fromSq)) none).set (mkSq 5 (rankOf m.fromSq))
        (some ⟨.rook, b.turn⟩)
    else if isKing && fTo - fFrom == -2 then
      (place2.set (mkSq 0 (rankOf m.fromSq)) none).set (mkSq 3 (rankOf m.fromSq))
        (some ⟨.rook, b.turn⟩)
    else place2
  let touches := fun (sq : Nat) => m.fromSq == sq || m.toSq == sq
  let newEp : Option Nat :=
    if isPawn && (rankOf m.toSq : Int) - (rankOf m.fromSq : Int) == 2 then
      some (mkSq (fileOf m.fromSq) (rankOf m.fromSq + 1))
    else if isPawn && (rankOf m.fromSq : Int) - (rankOf m.toSq : Int) == 2 then
      some (mkSq (fileOf m.fromSq) (rankOf m.fromSq - 1))
    else none
  { placement := place3
    turn := !b.turn
    castleWK := b.castleWK && !(touches 4 || touches 7)
    castleWQ := b.castleWQ && !(touches 4 || touches 0)
    castleBK := b.castleBK && !(touches 60 || touches 63)
    castleBQ := b.castleBQ && !(touches 60 || touches 56)
    ep := newEp
    halfmove := if isPawn || isCapture then 0 else b.halfmove + 1
    fullmove := if b.turn then b.fullmove else b.fullmove + 1 }

/-- Extra safety condition for castling moves: the king's origin and
transit squares must not be attacked (the landing square is covered by
the generic post-move check test). -/
def castleSafe (b : Position) (m : Move) : Bool :=
  if pieceAt b m.fromSq == some ⟨.king, b.turn⟩ then
    let fTo : Int := fileOf m.toSq
    let fFrom : Int := fileOf m.fromSq
    if fTo - fFrom == 2 then
      !isAttackedBy b (!b.turn) m.fromSq && !isAttackedBy b (!b.turn) (m.fromSq + 1)
    else if fTo - fFrom == -2 then
      !isAttackedBy b (!b.turn) m.fromSq && !isAttackedBy b (!b.turn) (m.fromSq - 1)
    else true
  else true

/-- Legal moves: pseudo-legal moves that do not leave the mover's king in
check (python-chess `Board.legal_moves`). -/
def legalMoves (b : Position) : List Move :=
  (pseudoLegalMoves b).filter fun m =>
    castleSafe b m && !(inCheckOf (applyMove b m) b.turn)

/-- python-chess `Board.is_legal`. -/
def isLegal (b : Position) (m : Move) : Bool :=
  decide (m ∈ legalMoves b)

def isCheckmate (b : Position) : Bool :=
  isCheck b && legalMoves b == []

/-- python-chess `Board.is_en_passant`. -/
def isEnPassantMove (b : Position) (m : Move) : Bool :=
  b.ep == some m.toSq && pieceAt b m.fromSq == some ⟨.pawn, b.turn⟩ &&
    ((m.toSq : Int) - m.fromSq == 7 || (m.toSq : Int) - m.fromSq == 9 ||
     (m.fromSq : Int) - m.toSq == 7 || (m.fromSq : Int) - m.toSq == 9) &&
    (pieceAt b m.toSq).isNone

/-- python-chess `Board.is_capture`. -/
def isCaptureMove (b : Position) (m : Move) : Bool :=
  match pieceAt b m.toSq with
  | some q => q.color != b.turn
  | none => isEnPassantMove b m

def fileName (f : Nat) : String := (Char.ofNat (97 + f)).toString
def rankName (r : Nat) : String := (Char.ofNat (49 + r)).toString
def squareName (sq : Nat) : String := fileName (fileOf sq) ++ rankName (rankOf sq)

def pieceUpper : PieceKind → String
  | .pawn => "P" | .knight => "N" | .bishop => "B"
  | .rook => "R" | .queen => "Q" | .king => "K"

/-- python-chess `Piece.symbol()`: uppercase for White, lowercase for Black. -/
def pieceSymbol (p : Piece) : String :=
  if p.color then pieceUpper p.kind else (pieceUpper p.kind).toLower

/-- python-chess `Move.uci()`. -/
def uciOf (m : Move) : String :=
  if m.isNull then "0000"
  else squareName m.fromSq ++ squareName m.toSq ++
    (match m.promo with
     | some k => (pieceUpper k).toLower
     | none => "")

/-- SAN text of a move without the check suffix, mirroring python-chess
`Board._algebraic_without_suffix` (castling, pawn-capture origin file,
piece-letter disambiguation against the other legal moves of the same
piece kind to the same target, capture marker, promotion marker).  The
original asserts that the origin square is occupied; this total model
renders such never-exercised moves as pawn moves instead. -/
def sanBody (b : Position) (m : Move) : String :=
  if m.isNull then "--"
  else
    let fFrom : Int := fileOf m.fromSq
    let fTo : Int := fileOf m.toSq
    if pieceAt b m.fromSq == some ⟨.king, b.turn⟩ && (fTo - fFrom == 2 || fTo - fFrom == -2) then
      if fTo - fFrom == 2 then "O-O" else "O-O-O"
    else
      let capture := isCaptureMove b m
      let base :=
        match pieceAt b m.fromSq with
        | some pc =>
          if pc.kind == .pawn then
            if capture then fileName (fileOf m.fromSq) else ""
          else
            let others := (legalMoves b).filterMap fun mv =>
              if mv.toSq == m.toSq && mv.fromSq != m.fromSq &&
                  pieceAt b mv.fromSq == pieceAt b m.fromSq then
                some mv.fromSq
              else none
            let dis :=
              if others.isEmpty then ""
              else
                let sameRank := others.any fun s => rankOf s == rankOf m.fromSq
                let sameFile := others.any fun s => fileOf s == fileOf m.fromSq
                let col := sameRank || !sameFile
                let row := sameFile
                (if col then fileName (fileOf m.fromSq) else "") ++
                  (if row then rankName (rankOf m.fromSq) else "")
            pieceUpper pc.kind ++ dis
        | none => if capture then fileName (fileOf m.fromSq) else ""
      base ++ (if capture then "x" else "") ++ squareName m.toSq ++
        (match m.promo with
         | some k => "=" ++ pieceUpper k
         | none => "")

/-- python-chess `Board.san`: the SAN body followed by `#` on mate and
`+` on check in the resulting position. -/
def sanOf (b : Position) (m : Move) : String :=
  let b' := applyMove b m
  sanBody b m ++ (if isCheck b' then (if isCheckmate b' then "#" else "+") else "")

/-! ### SAN and UCI parsing (python-chess `Board.parse_san`, `Move.from_uci`) -/

/-- The error kinds `Board.parse_san` can raise (`InvalidMoveError`,
`IllegalMoveError`, `AmbiguousMoveError`) — exactly the set that
`BoardState.validate_and_parse_move` catches. -/
inductive SanErr where
  | invalid | illegal | ambiguous
  deriving DecidableEq, Repr

def fileIdx (c : Char) : Option Nat :=
  if 'a' ≤ c ∧ c ≤ 'h' then some (c.toNat - 97) else none

def rankIdx (c : Char) : Option Nat :=
  if '1' ≤ c ∧ c ≤ '8' then some (c.toNat - 49) else none

def pieceOfUpper (c : Char) : Option PieceKind :=
  match c with
  | 'N' => some .knight | 'B' => some .bishop | 'K' => some .king
  | 'R' => some .rook | 'Q' => some .queen | _ => none

def promoKindOf (c : Char) : Option PieceKind :=
  match c with
  | 'n' => some .knight | 'b' => some .bishop | 'r' => some .rook
  | 'q' => some .queen | 'k' => some .king
  | 'N' => some .knight | 'B' => some .bishop | 'R' => some .rook
  | 'Q' => some .queen | 'K' => some .king
  | _ => none

/-- The capture groups of python-chess's SAN regular expression
`([NBKRQ])?([a-h])?([1-8])?[-x]?([a-h][1-8])(=?[nbrqkNBRQK])?[+#]?`. -/
structure SanGroups where
  piece : Option PieceKind
  fromFile : Option Nat
  fromRank : Option Nat
  target : Nat
  promo : Option PieceKind
  deriving DecidableEq, Repr

/-- Branches of an optional single-character group, greedy first. -/
def optBranches (p : Char → Option α) : List Char → List (Option α × List Char)
  | c :: rest =>
    match p c with
    | some a => [(some a, rest), (none, c :: rest)]
    | none => [(none, c :: rest)]
  | [] => [(none, [])]

def sepBranches : List Char → List (Option Unit × List Char)
  | c :: rest =>
    if c = '-' ∨ c = 'x' then [(some (), rest), (none, c :: rest)]
    else [(none, c :: rest)]
  | [] => [(none, [])]

def promoBranches : List Char → List (Option PieceKind × List Char)
  | '=' :: c :: rest =>
    match promoKindOf c with
    | some k => [(some k, rest), (none, '=' :: c :: rest)]
    | none => [(none, '=' :: c :: rest)]
  | c :: rest =>
    match promoKindOf c with
    | some k => [(some k, rest), (none, c :: rest)]
    | none => [(none, c :: rest)]
  | [] => [(none, [])]

def squareChars : List Char → Option (Nat × List Char)
  | c1 :: c2 :: rest =>
    match fileIdx c1, rankIdx c2 with
    | some f, some r => some (mkSq f r, rest)
    | _, _ => none
  | _ => none

/-- Drop one trailing `+` or `#` (the regex's optional check suffix). -/
def stripCheckMark (cs : List Char) : List Char :=
  match cs.reverse with
  | c :: rest => if c = '+' ∨ c = '#' then rest.reverse else cs
  | [] => cs

/-- Match the SAN regular expression with backtracking, anchored at both
ends, returning its capture groups. -/
def sanGroups (cs : List Char) : Option SanGroups :=
  (optBranches pieceOfUpper cs).findSome? fun pb =>
    (optBranches fileIdx pb.2).findSome? fun fb =>
      (optBranches rankIdx fb.2).findSome? fun rb =>
        (sepBranches rb.2).findSome? fun sb =>
          match squareChars sb.2 with
          | none => none
          | some (sq, cs5) =>
            (promoBranches cs5).findSome? fun prb =>
              if prb.2 = [] then some ⟨pb.1, fb.1, rb.1, sq, prb.1⟩ else none

/-- The promotion defaulting of python-chess `Board.find_move`: a missing
promotion becomes a queen for a pawn reaching a back rank. -/
def promoDefault (b : Position) (fromSq toSq : Nat) (promo : Option PieceKind) :
    Option PieceKind :=
  if promo == none && pieceAt b fromSq == some ⟨.pawn, b.turn⟩ &&
      (rankOf toSq == 7 || rankOf toSq == 0) then
    some PieceKind.queen
  else promo

/-- python-chess `Board.find_move`: default the promotion, then demand
legality. -/
def findMove (b : Position) (fromSq toSq : Nat) (promo : Option PieceKind) :
    Except SanErr Move :=
  if isLegal b ⟨fromSq, toSq, promoDefault b fromSq toSq promo⟩ then
    .ok ⟨fromSq, toSq, promoDefault b fromSq toSq promo⟩
  else .error .illegal

def findCastle (b : Position) (kingside : Bool) : Option Move :=
  (legalMoves b).find? fun m =>
    pieceAt b m.fromSq == some ⟨.king, b.turn⟩ &&
      (if kingside then (fileOf m.toSq : Int) - fileOf m.fromSq == 2
       else (fileOf m.toSq : Int) - fileOf m.fromSq == -2)

/-- The SAN-regular-expression filter over the legal moves: target square
(own-occupied targets excluded, as `to_mask` masks them off), origin
file/rank when given, piece kind (pawns when no piece letter), exact
promotion. -/
def sanCandidates (b : Position) (g : SanGroups) : List Move :=
  (legalMoves b).filter fun mv =>
    mv.toSq == g.target &&
    !((pieceAt b g.target).any fun q => q.color == b.turn) &&
    mv.promo == g.promo &&
    (match g.piece with
     | some pk => pieceAt b mv.fromSq == some ⟨pk, b.turn⟩
     | none => pieceAt b mv.fromSq == some ⟨.pawn, b.turn⟩) &&
    (match g.fromFile with
     | some f => fileOf mv.fromSq == f
     | none => true) &&
    (match g.fromRank with
     | some r => rankOf mv.fromSq == r
     | none => true)

/-- The matched-move loop of `parse_san`: no candidate raises
`IllegalMoveError`, more than one raises `AmbiguousMoveError`. -/
def pickCandidate : List Move → Except SanErr Move
  | [] => .error .illegal
  | [m] => .ok m
  | _ => .error .ambiguous

/-- The regex-matched tail of `parse_san`: a fully coordinate-specified
move (no piece letter, both origin file and rank) goes through
`find_move`; anything else is matched against the filtered legal moves. -/
def resolveSanGroups (b : Position) (g : SanGroups) : Except SanErr Move :=
  match g.piece, g.fromFile, g.fromRank with
  | none, some f, some r => findMove b (mkSq f r) g.target g.promo
  | _, _, _ => pickCandidate (sanCandidates b g)

/-- python-chess `Board.parse_san`: castling tokens first; otherwise match
the SAN regular expression and resolve its capture groups against the
legal moves.  No match is illegal, two matches are ambiguous, a failed
regex is invalid. -/
def parseSan (b : Position) (s : String) : Except SanErr Move :=
  if s = "O-O" ∨ s = "O-O+" ∨ s = "O-O#" ∨ s = "0-0" ∨ s = "0-0+" ∨ s = "0-0#" then
    match findCastle b true with
    | some m => .ok m
    | none => .error .illegal
  else if s = "O-O-O" ∨ s = "O-O-O+" ∨ s = "O-O-O#" ∨ s = "0-0-0" ∨ s = "0-0-0+" ∨ s = "0-0-0#" then
    match findCastle b false with
    | some m => .ok m
    | none => .error .illegal
  else
    match sanGroups (stripCheckMark s.data) with
    | none => .error .invalid
    | some g => resolveSanGroups b g

/-- python-chess `Move.from_uci`, as an `Option` (the repository catches
the `InvalidMoveError` / `ValueError` it raises). -/
def fromUci (s : String) : Option Move :=
  if s = "0000" then some ⟨0, 0, none⟩
  else
    match s.data with
    | [c1, c2, c3, c4] =>
      match fileIdx c1, rankIdx c2, fileIdx c3, rankIdx c4 with
      | some f1, some r1, some f2, some r2 =>
        if mkSq f1 r1 = mkSq f2 r2 then none else some ⟨mkSq f1 r1, mkSq f2 r2, none⟩
      | _, _, _, _ => none
    | [c1, c2, c3, c4, c5] =>
      match fileIdx c1, rankIdx c2, fileIdx c3, rankIdx c4, promoLower c5 with
      | some f1, some r1, some f2, some r2, some pk =>
        if mkSq f1 r1 = mkSq f2 r2 then none else some ⟨mkSq f1 r1, mkSq f2 r2, some pk⟩
      | _, _, _, _, _ => none
    | _ => none
where
  promoLower : Char → Option PieceKind
    | 'p' => some .pawn | 'n' => some .knight | 'b' => some .bishop
    | 'r' => some .rook | 'q' => some .queen | 'k' => some .king
    | _ => none

/-! ### FEN parsing and rendering (python-chess `Board.set_fen` / `Board.fen`) -/

def pieceOfFenChar (c : Char) : Option Piece :=
  match c with
  | 'P' => some ⟨.pawn, true⟩ | 'N' => some ⟨.knight, true⟩ | 'B' => some ⟨.bishop, true⟩
  | 'R' => some ⟨.rook, true⟩ | 'Q' => some ⟨.queen, true⟩ | 'K' => some ⟨.king, true⟩
  | 'p' => some ⟨.pawn, false⟩ | 'n' => some ⟨.knight, false⟩ | 'b' => some ⟨.bishop, false⟩
  | 'r' => some ⟨.rook, false⟩ | 'q' => some ⟨.queen, false⟩ | 'k' => some ⟨.king, false⟩
  | _ => none

/-- One FEN rank, left to right; digits 1–8 (no two adjacent) and piece
letters, exactly eight squares. -/
def fenRowSquares : List Char → Bool → Option (List (Option Piece))
  | [], _ => some []
  | c :: rest, prevDigit =>
    if '1' ≤ c ∧ c ≤ '8' then
      if prevDigit then none
      else (fenRowSquares rest true).map
        (fun tl => List.replicate (c.toNat - 48) none ++ tl)
    else
      match pieceOfFenChar c with
      | some p => (fenRowSquares rest false).map (fun tl => some p :: tl)
      | none => none

/-- Split a character list on a separator (Python `str.split(sep)`:
adjacent separators yield empty groups). -/
def splitOnChar (sep : Char) : List Char → List (List Char)
  | [] => [[]]
  | c :: rest =>
    let groups := splitOnChar sep rest
    if c = sep then [] :: groups
    else
      match groups with
      | g :: gs => (c :: g) :: gs
      | [] => [[c]]

/-- Python `int(...)` restricted to the unsigned decimal numerals the FEN
clock fields carry. -/
def parseNatDigits (cs : List Char) : Option Nat :=
  if cs = [] then none
  else
    cs.foldl
      (fun acc c => acc.bind fun n =>
        if '0' ≤ c ∧ c ≤ '9' then some (n * 10 + (c.toNat - 48)) else none)
      (some 0)

def parseBoardPart (s : String) : Except String (List (Option Piece)) :=
  let rows := splitOnChar '/' s.data
  if rows.length ≠ 8 then .error "expected 8 rows in position part of fen"
  else
    let parsed := rows.map fun row => fenRowSquares row false
    if parsed.all fun r => r.isSome ∧ (r.getD []).length = 8 then
      .ok ((parsed.map (fun r => r.getD [])).reverse.flatten)
    else .error "invalid position part of fen"

def castlingOfChars : List Char → Option (Bool × Bool × Bool × Bool)
  | [] => some (false, false, false, false)
  | c :: rest =>
    (castlingOfChars rest).bind fun st =>
      match c with
      | 'K' => some (true, st.2.1, st.2.2.1, st.2.2.2)
      | 'Q' => some (st.1, true, st.2.2.1, st.2.2.2)
      | 'k' => some (st.1, st.2.1, true, st.2.2.2)
      | 'q' => some (st.1, st.2.1, st.2.2.1, true)
      | _ => none

def parseSquareName (s : String) : Option Nat :=
  match s.data with
  | [c1, c2] =>
    match fileIdx c1, rankIdx c2 with
    | some f, some r => some (mkSq f r)
    | _, _ => none
  | _ => none

/-- python-chess `Board(fen)` / `Board.set_fen`: whitespace-separated
fields; the placement field is mandatory and the remaining fields default
to White to move, no castling, no en passant, clocks 0 and 1; surplus
fields are an error.  Any malformed field raises `ValueError`. -/
def boardFromFen (fen : String) : Except String Position :=
  let parts := ((splitOnChar ' ' fen.data).filter (fun cs => cs ≠ [])).map
    (fun cs => String.mk cs)
  match parts with
  | [] => .error "empty fen"
  | boardPart :: rest => do
    let placement ← parseBoardPart boardPart
    let turn ←
      match rest.getD 0 "w" with
      | "w" => Except.ok true
      | "b" => Except.ok false
      | _ => Except.error "invalid turn part of fen"
    let castlePart := rest.getD 1 "-"
    let rights ←
      if castlePart = "-" then Except.ok (false, false, false, false)
      else
        match castlingOfChars castlePart.data with
        | some r => Except.ok r
        | none => Except.error "invalid castling part of fen"
    let ep ←
      match rest.getD 2 "-" with
      | "-" => Except.ok none
      | sqs =>
        match parseSquareName sqs with
        | some sq => Except.ok (some sq)
        | none => Except.error "invalid en passant part of fen"
    let halfmove ←
      match parseNatDigits (rest.getD 3 "0").data with
      | some n => Except.ok n
      | none => Except.error "invalid half-move clock in fen"
    let fullmove ←
      match parseNatDigits (rest.getD 4 "1").data with
      | some n => Except.ok (max 1 n)
      | none => Except.error "invalid fullmove number in fen"
    if rest.length > 5 then throw "fen string has more parts than expected"
    else
      pure { placement := placement, turn := turn
             castleWK := rights.1, castleWQ := rights.2.1
             castleBK := rights.2.2.1, castleBQ := rights.2.2.2
             ep := ep, halfmove := halfmove, fullmove := fullmove }

def renderRank (b : Position) (r : Nat) : String :=
  let step := fun (st : String × Nat) (f : Nat) =>
    match pieceAt b (mkSq f r) with
    | some p => (st.1 ++ (if st.2 = 0 then "" else toString st.2) ++ pieceSymbol p, 0)
    | none => (st.1, st.2 + 1)
  let fin := (List.range 8).foldl step ("", 0)
  fin.1 ++ (if fin.2 = 0 then "" else toString fin.2)

/-- python-chess `Board.fen()` (default mode: the en-passant square is
emitted only when an en-passant capture is actually legal). -/
def renderFen (b : Position) : String :=
  let boardPart := String.intercalate "/" (((List.range 8).reverse).map (renderRank b))
  let castlePart :=
    let s := (if b.castleWK then "K" else "") ++ (if b.castleWQ then "Q" else "") ++
      (if b.castleBK then "k" else "") ++ (if b.castleBQ then "q" else "")
    if s = "" then "-" else s
  let epPart :=
    match b.ep with
    | some sq => if (legalMoves b).any (fun m => isEnPassantMove b m) then squareName sq else "-"
    | none => "-"
  boardPart ++ " " ++ (if b.turn then "w" else "b") ++ " " ++ castlePart ++ " " ++
    epPart ++ " " ++ toString b.halfmove ++ " " ++ toString b.fullmove

def backRank (c : Bool) : List (Option Piece) :=
  ([.rook, .knight, .bishop, .queen, .king, .bishop, .knight, .rook] : List PieceKind).map
    (fun k => some ⟨k, c⟩)

def pawnRank (c : Bool) : List (Option Piece) :=
  List.replicate 8 (some ⟨.pawn, c⟩)

def emptyRank : List (Option Piece) := List.replicate 8 none

/-- The standard chess starting position (python-chess `Board()`). -/
def startPos : Position :=
  { placement := backRank true ++ pawnRank true ++ emptyRank ++ emptyRank ++
      emptyRank ++ emptyRank ++ pawnRank false ++ backRank false
    turn := true
    castleWK := true, castleWQ := true, castleBK := true, castleBQ := true
    ep := none, halfmove := 0, fullmove := 1 }

/-! ### board_state.py — `BoardState` -/

/-- A python-chess `Board` as the session sees it: the current position
plus the internal undo stack; `push` records the pre-move position so
`pop` can restore every field exactly, which is what python-chess's
board-state snapshot stack does. -/
structure Board where
  pos : Position
  stack : List (Position × Move)
  deriving DecidableEq, Repr

def Board.push (b : Board) (m : Move) : Board :=
  ⟨applyMove b.pos m, (b.pos, m) :: b.stack⟩

def startBoard : Board := ⟨startPos, []⟩

def boardOfFen (fen : String) : Except String Board :=
  (boardFromFen fen).map (fun p => ⟨p, []⟩)

structure BoardState where
  board : Board
  initial_fen : String
  move_history : List String
  deriving DecidableEq, Repr

/-- `BoardState.__init__`: `chess.Board(fen) if fen else chess.Board()` —
`None` and the empty string are both falsy and yield the start position; a
malformed FEN raises.  `initial_fen` is the rendered FEN of the board. -/
def BoardState.init (fen : Option String) : Except String BoardState :=
  match fen with
  | some s =>
    if s = "" then .ok ⟨startBoard, renderFen startBoard.pos, []⟩
    else
      match boardOfFen s with
      | .error e => .error e
      | .ok b => .ok ⟨b, renderFen b.pos, []⟩
  | none => .ok ⟨startBoard, renderFen startBoard.pos, []⟩

/-- `BoardState.load_fen`: `chess.Board(fen)` is evaluated before any
assignment, so on a parse error the method raises with the session state
untouched; on success the board is replaced and both histories reset. -/
def BoardState.load_fen (bs : BoardState) (fen : String) : BoardState × Option String :=
  match boardOfFen fen with
  | .error e => (bs, some e)
  | .ok b => (⟨b, fen, []⟩, none)

/-- `BoardState.push_move`: the SAN label is computed against the pre-move
board, appended to the display history, and then the move is pushed. -/
def BoardState.push_move (bs : BoardState) (m : Move) : BoardState :=
  ⟨bs.board.push m, bs.initial_fen, bs.move_history ++ [sanOf bs.board.pos m]⟩

/-- `BoardState.undo_move`: when the display history is non-empty,
`board.pop()` restores the previous position and the last SAN label is
popped and returned; otherwise `None` is returned.  `board.pop()` on an
empty internal stack would raise `IndexError` before any state changes. -/
def BoardState.undo_move (bs : BoardState) : Except String (BoardState × Option String) :=
  if bs.move_history.isEmpty then .ok (bs, none)
  else
    match bs.board.stack with
    | [] => .error "IndexError"
    | (p0, _) :: rest =>
      .ok (⟨⟨p0, rest⟩, bs.initial_fen, bs.move_history.dropLast⟩,
        some (bs.move_history.getLastD ""))

/-- The UCI fallback of `validate_and_parse_move`: `Move.from_uci`, the
move accepted only when it is in the board's legal-move set. -/
def uciFallback (b : Position) (s : String) : Option Move :=
  match fromUci s with
  | some m => if isLegal b m then some m else none
  | none => none

/-- `BoardState.validate_and_parse_move`: try SAN; when that raises one of
the three parse errors, fall back to UCI, accepted only when the move is
legal; otherwise `None`.  Total — malformed input never escapes. -/
def BoardState.validate_and_parse_move (bs : BoardState) (s : String) : Option Move :=
  match parseSan bs.board.pos s with
  | .ok m => some m
  | .error _ => uciFallback bs.board.pos s

/-! ### engine.py — `EngineAnalysis` -/

/-- Engine score values as in python-chess `engine.Cp` / `engine.Mate` /
`engine.MateGiven`. -/
inductive EScore where
  | cp (v : Int)
  | mate (n : Int)
  | mateGiven
  deriving DecidableEq, Repr

def EScore.neg : EScore → EScore
  | .cp v => .cp (-v)
  | .mate n => if n = 0 then .mateGiven else .mate (-n)
  | .mateGiven => .mate 0

/-- `Score.score(mate_score=s)`. -/
def EScore.scoreWith (s : Int) : EScore → Int
  | .cp v => v
  | .mate n => if n > 0 then s - n else -s - n
  | .mateGiven => s

/-- `Score.mate()`. -/
def EScore.mateVal : EScore → Option Int
  | .cp _ => none
  | .mate n => some n
  | .mateGiven => some 0

/-- python-chess `PovScore`: a score together with the side it is relative
to.  For an `analyse` result this side is the side to move of the analysed
position (UCI engines score for the side to move). -/
structure PovScore where
  rel : EScore
  pov : Bool
  deriving DecidableEq, Repr

/-- `PovScore.white()`: the score seen from White's point of view. -/
def PovScore.white (ps : PovScore) : EScore :=
  if ps.pov then ps.rel else ps.rel.neg

/-- The numeric value the engine reported for the side to move of the
analysed position (`PovScore.relative.score(...)`): positive means good
for that side. -/
def PovScore.sideToMoveCp (ps : PovScore) : Int :=
  ps.rel.scoreWith 10000

/-- One entry of the result list of `engine.analyse(board, limit,
multipv=n)`: the `"score"` key is always present; the `"pv"` key may be
absent (it is absent for positions with no legal moves). -/
structure EngineInfo where
  score : PovScore
  pv : Option (List Move)
  deriving DecidableEq, Repr

/-- Exceptions the reconciliation code can raise while processing one
info entry. -/
inductive PyErr where
  | keyError | indexError | assertionError
  deriving DecidableEq, Repr

/-- One element of the list `EngineAnalysis.analyze_position` returns. -/
structure EngineLine where
  move : Move
  san : String
  score_cp : Int
  mate : Option Int
  pv : List String
  deriving DecidableEq, Repr

/-- The PV reconciliation loop of `analyze_position`: replay the engine
line on a scratch copy of the board; a step that is legal in the current
scratch position is stored as SAN and pushed, an illegal step is stored as
its UCI label and the line is truncated there. -/
def pvReconcile (pos : Position) : List Move → List String
  | [] => []
  | m :: rest =>
    if isLegal pos m then sanOf pos m :: pvReconcile (applyMove pos m) rest
    else [uciOf m]

/-- Processing of one info entry in `analyze_position`: the score is taken
from White's point of view (`info["score"].white()`); the stored variation
reconciles the first five PV moves; the `"move"` field is `info["pv"][0]`,
which raises `KeyError` when the `"pv"` key is absent and `IndexError`
when the list is empty, and `board.san(info["pv"][0])` asserts that the
origin square of that move is occupied.  The `_debug_log` calls write to a
fixed path and swallow every exception, so they are semantically inert and
not modelled. -/
def processInfo (board : Position) (info : EngineInfo) : Except PyErr EngineLine :=
  match info.pv with
  | none => .error .keyError
  | some [] => .error .indexError
  | some (m0 :: ms) =>
    let score := info.score.white
    if !m0.isNull && (pieceAt board m0.fromSq).isNone then .error .assertionError
    else .ok ⟨m0, sanOf board m0, score.scoreWith 10000, score.mateVal,
      pvReconcile board ((m0 :: ms).take 5)⟩

/-- `EngineAnalysis.analyze_position`, with the external engine's reply to
the `analyse` call passed in as data (the engine is a subprocess outside
this repository).  Entries are processed in order; a raised exception
aborts the whole call. -/
def analyze_position (board : Position) : List EngineInfo → Except PyErr (List EngineLine)
  | [] => .ok []
  | info :: rest =>
    match processInfo board info with
    | .error e => .error e
    | .ok line =>
      match analyze_position board rest with
      | .error e => .error e
      | .ok lines => .ok (line :: lines)

/-- The result dictionary of `EngineAnalysis.evaluate_move`. -/
structure EngineEval where
  move : Move
  san : String
  score_cp : Int
  mate : Option Int
  deriving DecidableEq, Repr

/-- The single info dictionary of a non-multipv `engine.analyse` call. -/
structure EngineReply where
  score : PovScore
  deriving DecidableEq, Repr

/-- `EngineAnalysis.evaluate_move`: pushes the move on a scratch copy,
analyses the resulting position — whose engine reply is passed in as data,
its score's point of view being the side to move of that resulting
position — and stores the White-point-of-view score.  `board.san(move)`
asserts that the move's origin square is occupied. -/
def evaluate_move (board : Position) (m : Move) (reply : EngineReply) :
    Except PyErr EngineEval :=
  let score := reply.score.white
  if !m.isNull && (pieceAt board m.fromSq).isNone then .error .assertionError
  else .ok ⟨m, sanOf board m, score.scoreWith 10000, score.mateVal⟩

/-! ### heuristics.py -/

def PIECE_VALUES : List (PieceKind × Nat) :=
  [(.pawn, 1), (.knight, 3), (.bishop, 3), (.rook, 5), (.queen, 9), (.king, 0)]

/-- d4, d5, e4, e5. -/
def CENTER_SQUARES : List Nat := [27, 35, 28, 36]

def countPieces (b : Position) (k : PieceKind) (c : Bool) : Nat :=
  ((List.range 64).filter fun sq => pieceAt b sq == some ⟨k, c⟩).length

/-- Python `f"{n:+d}"`. -/
def signedStr (n : Int) : String :=
  if 0 ≤ n then "+" ++ toString n else toString n

structure MaterialInfo where
  white : Nat
  black : Nat
  balance : Int
  description : String
  deriving DecidableEq, Repr

def materialBalanceOf (b : Position) : MaterialInfo :=
  let w := (PIECE_VALUES.map fun pv => countPieces b pv.1 true * pv.2).sum
  let bl := (PIECE_VALUES.map fun pv => countPieces b pv.1 false * pv.2).sum
  let bal : Int := (w : Int) - (bl : Int)
  ⟨w, bl, bal,
    "White: " ++ toString w ++ " pts, Black: " ++ toString bl ++
      " pts (balance: " ++ signedStr bal ++ ")"⟩

structure CenterInfo where
  white_controls : Nat
  black_controls : Nat
  description : String
  deriving DecidableEq, Repr

def centerControlOf (b : Position) : CenterInfo :=
  let w := (CENTER_SQUARES.filter fun sq => isAttackedBy b true sq).length
  let bl := (CENTER_SQUARES.filter fun sq => isAttackedBy b false sq).length
  ⟨w, bl,
    "Center control — White: " ++ toString w ++ "/4, Black: " ++ toString bl ++ "/4"⟩

structure ActivityInfo where
  white_activity : Nat
  black_activity : Nat
  description : String
  deriving DecidableEq, Repr

def pieceActivityOf (b : Position) : ActivityInfo :=
  let count := fun (c : Bool) =>
    ((List.range 64).map fun sq =>
      match pieceAt b sq with
      | some pc => if pc.color == c then (attacksFrom b sq).length else 0
      | none => 0).sum
  let w := count true
  let bl := count false
  ⟨w, bl,
    "Piece activity (squares attacked) — White: " ++ toString w ++
      ", Black: " ++ toString bl⟩

structure KingSafetySide where
  attackers : Nat
  in_check : Bool
  castled : Bool
  pawn_shield : Nat
  deriving DecidableEq, Repr

def hasCastlingRights (b : Position) (c : Bool) : Bool :=
  if c then b.castleWK || b.castleWQ else b.castleBK || b.castleBQ

/-- One side of `_king_safety`.  The original indexes `board.attackers`
with the king square and would raise on a kingless board; under the
Position invariant (one king per side) the king is always present, and
this total model returns zero counts otherwise.  The pawn-shield scan adds
raw square offsets and only bounds-checks 0..63, exactly like the source
(including its lack of a file-wrap check). -/
def kingSafetySideOf (b : Position) (color : Bool) : KingSafetySide :=
  let kingSq := kingOf b color
  let attackers :=
    match kingSq with
    | some k => (attackersOf b (!color) k).length
    | none => 0
  let shield :=
    match kingSq with
    | some k =>
      let dir : Int := if color then 8 else -8
      (([dir - 1, dir, dir + 1] : List Int).filter fun off =>
        let sq : Int := (k : Int) + off
        decide (0 ≤ sq ∧ sq ≤ 63) && pieceAt b sq.toNat == some ⟨.pawn, color⟩).length
    | none => 0
  ⟨attackers, isCheck b && b.turn == color, !hasCastlingRights b color, shield⟩

structure KingSafety where
  white : KingSafetySide
  black : KingSafetySide
  deriving DecidableEq, Repr

def kingSafetyOf (b : Position) : KingSafety :=
  ⟨kingSafetySideOf b true, kingSafetySideOf b false⟩

structure PawnIssues where
  white : List String
  black : List String
  deriving DecidableEq, Repr

/-- One side of `_pawn_structure`: doubled-pawn messages for files 0..7 in
order, then isolated-pawn messages over the files that have a pawn (a
CPython set of small ints iterates ascending, matching this order). -/
def pawnIssuesSideOf (b : Position) (c : Bool) : List String :=
  let pawnFiles :=
    ((List.range 64).filter fun sq => pieceAt b sq == some ⟨.pawn, c⟩).map fileOf
  let doubled := ((List.range 8).filter fun f => pawnFiles.count f > 1).map fun f =>
    "doubled pawns on " ++ fileName f ++ "-file"
  let isolated := ((List.range 8).filter fun f =>
      pawnFiles.contains f &&
        !(((if f = 0 then [] else [f - 1]) ++ (if f = 7 then [] else [f + 1])).any
          fun af => pawnFiles.contains af)).map fun f =>
    "isolated pawn on " ++ fileName f ++ "-file"
  doubled ++ isolated

def pawnStructureOf (b : Position) : PawnIssues :=
  ⟨pawnIssuesSideOf b true, pawnIssuesSideOf b false⟩

/-- `_tactical_motifs`: a check flag, then every non-king piece attacked by
the opponent and not defended by its own side, scanning squares 0..63. -/
def tacticalMotifsOf (b : Position) : List String :=
  (if isCheck b then ["King is in CHECK"] else []) ++
    (List.range 64).filterMap fun sq =>
      match pieceAt b sq with
      | some pc =>
        if pc.kind != PieceKind.king && isAttackedBy b (!pc.color) sq &&
            !isAttackedBy b pc.color sq then
          some ("HANGING: " ++ pieceSymbol pc ++ " on " ++ squareName sq ++
            " is attacked but undefended")
        else none
      | none => none

structure DevInfo where
  white : List String
  black : List String
  deriving DecidableEq, Repr

def devSquaresW : List (Nat × String) := [(1, "Nb1"), (6, "Ng1"), (2, "Bc1"), (5, "Bf1")]
def devSquaresB : List (Nat × String) := [(57, "Nb8"), (62, "Ng8"), (58, "Bc8"), (61, "Bf8")]

def occupiedBySide (b : Position) (c : Bool) (sq : Nat) : Bool :=
  match pieceAt b sq with
  | some pc => pc.color == c
  | none => false

/-- `_development`: a start square is listed as undeveloped exactly when it
is occupied by a piece of the side — note the source checks only
`piece.color == color`, never the piece type. -/
def developmentOf (b : Position) : DevInfo :=
  ⟨(devSquaresW.filter fun p => occupiedBySide b true p.1).map Prod.snd,
   (devSquaresB.filter fun p => occupiedBySide b false p.1).map Prod.snd⟩

structure Heuristics where
  material : MaterialInfo
  center_control : CenterInfo
  piece_activity : ActivityInfo
  king_safety : KingSafety
  pawn_structure : PawnIssues
  tactics : List String
  development : DevInfo
  deriving DecidableEq, Repr

/-- `extract_heuristics`: the seven independently computed feature
groups. -/
def extract_heuristics (b : Position) : Heuristics :=
  ⟨materialBalanceOf b, centerControlOf b, pieceActivityOf b, kingSafetyOf b,
   pawnStructureOf b, tacticalMotifsOf b, developmentOf b⟩

end ChessCoach

namespace ChessCoach

/-! ### Concrete inputs used by witnesses and counterexamples -/

/-- The pawn move e2→e4 (squares 12 → 28). -/
def mvE4 : Move := ⟨12, 28, none⟩

/-- The pawn move e7→e5 (squares 52 → 36). -/
def mvE5 : Move := ⟨52, 36, none⟩

/-- The position after 1.e4: Black to move. -/
def posAfterE4 : Position := applyMove startPos mvE4

/-- The position after 1.f3 e5 2.g4 Qh4#: White to move and checkmated,
hence no legal moves — the scenario in which the engine's reply carries a
score but no principal variation. -/
def foolsMatePos : Position :=
  applyMove (applyMove (applyMove (applyMove startPos ⟨13, 21, none⟩) ⟨52, 36, none⟩)
    ⟨14, 30, none⟩) ⟨59, 31, none⟩

/-- Kings on e1/e8 and a white QUEEN on g1 (the knight's start square). -/
def queenOnG1 : Position :=
  { placement := (((List.replicate 64 (none : Option Piece)).set 4
      (some ⟨.king, true⟩)).set 6 (some ⟨.queen, true⟩)).set 60 (some ⟨.king, false⟩)
    turn := true
    castleWK := false, castleWQ := false, castleBK := false, castleBQ := false
    ep := none, halfmove := 0, fullmove := 1 }

/-- A fresh default session (`BoardState()`). -/
def bs0 : BoardState := ⟨startBoard, renderFen startPos, []⟩

/-- The engine result used by the C1 witness: one line for the position
after 1.e4, scored +50 centipawns for the side to move (Black). -/
def c1Result : List EngineInfo := [⟨⟨.cp 50, false⟩, some [mvE5]⟩]

def c1Lines : List EngineLine := [⟨mvE5, "e5", -50, none, ["e5"]⟩]

def c1Reply : EngineReply := ⟨⟨.cp 20, true⟩⟩

def c1Eval : EngineEval := ⟨mvE5, "e5", 20, none⟩

/-! ### Shared helper lemmas -/

theorem isLegal_iff_mem {b : Position} {m : Move} :
    isLegal b m = true ↔ m ∈ legalMoves b := by
  simp [isLegal]

theorem processInfo_score {board : Position} {info : EngineInfo} {line : EngineLine}
    (h : processInfo board info = .ok line) :
    line.score_cp = info.score.white.scoreWith 10000 := by
  unfold processInfo at h
  rcases hpv : info.pv with _ | ⟨_ | ⟨m0, ms⟩⟩ <;> rw [hpv] at h
  · exact absurd h (by simp)
  · exact absurd h (by simp)
  · simp only at h
    split at h
    · exact absurd h (by simp)
    · injection h with h
      rw [← h]

theorem analyze_position_scores {board : Position} :
    ∀ {result : List EngineInfo} {lines : List EngineLine},
      analyze_position board result = .ok lines →
      lines.map EngineLine.score_cp =
        result.map (fun info => info.score.white.scoreWith 10000)
  | [], lines, h => by
    rw [analyze_position] at h
    injection h with h
    rw [← h]
    rfl
  | info :: rest, lines, h => by
    rw [analyze_position] at h
    rcases hp : processInfo board info with e | line <;> rw [hp] at h
    · exact absurd h (by simp)
    · rcases hr : analyze_position board rest with e' | tl <;> rw [hr] at h
      · exact absurd h (by simp)
      · injection h with h
        rw [← h]
        simp [processInfo_score hp, analyze_position_scores hr]

theorem pvReconcile_legal :
    ∀ (mvs : List Move) (pos : Position) (i : Nat),
      i + 1 < (pvReconcile pos mvs).length →
      isLegal ((mvs.take i).foldl applyMove pos) (mvs.getD i ⟨0, 0, none⟩) = true
  | [], pos, i, h => by simp [pvReconcile] at h
  | m :: rest, pos, i, h => by
    by_cases hleg : isLegal pos m = true
    · rw [pvReconcile, if_pos hleg] at h
      cases i with
      | zero => simpa using hleg
      | succ j =>
        simp only [List.length_cons, Nat.add_lt_add_iff_right] at h
        simpa using pvReconcile_legal rest (applyMove pos m) j h
    · rw [pvReconcile, if_neg hleg] at h
      simp at h

/-! ### C1 — evaluation orientation of `analyze_position` / `evaluate_move` -/

/-- C1 counterexample: for the position after 1.e4 (Black to move) and an
engine line scored +50 centipawns for the side to move, `analyze_position`
stores −50 (`info["score"].white()`), not the side-to-move value +50 — the
stored evaluation is oriented to White, not to the side to move. -/
theorem c1_counterexample :
    posAfterE4.turn = false ∧
    (analyze_position posAfterE4 c1Result).map (fun ls => ls.map EngineLine.score_cp) =
      .ok [-50] ∧
    (⟨.cp 50, false⟩ : PovScore).sideToMoveCp = 50 ∧
    ((-50 : Int) ≠ 50) :=
  ⟨by rfl, by rfl, by rfl, by decide⟩

/-- C1 amended: the evaluations stored by `analyze_position` and by
`evaluate_move` are both the White-point-of-view value of the engine's
reported score (`PovScore.white`), i.e. the two operations share one
orientation — but it is White-relative, not side-to-move-relative, so a
direct difference of two stored evaluations is a White-relative delta. -/
theorem c1_amended (board : Position) (result : List EngineInfo) (lines : List EngineLine)
    (m : Move) (reply : EngineReply) (ev : EngineEval)
    (h1 : analyze_position board result = .ok lines)
    (h2 : evaluate_move board m reply = .ok ev) :
    lines.map EngineLine.score_cp =
      result.map (fun info => info.score.white.scoreWith 10000) ∧
    ev.score_cp = reply.score.white.scoreWith 10000 := by
  refine ⟨analyze_position_scores h1, ?_⟩
  unfold evaluate_move at h2
  split at h2
  · exact absurd h2 (by simp)
  · injection h2 with h2
    rw [← h2]

theorem c1_amended_witness :
    c1Lines.map EngineLine.score_cp =
      c1Result.map (fun info => info.score.white.scoreWith 10000) ∧
    c1Eval.score_cp = c1Reply.score.white.scoreWith 10000 :=
  c1_amended posAfterE4 c1Result c1Lines mvE5 c1Reply c1Eval (by rfl) (by rfl)

/-! ### C2 — sequential legality of the reconciled variation -/

/-- C2 counterexample: from the start position with the engine line
[e2e4, e2e4], the reconciled variation keeps TWO entries, and its second
kept entry is the coordinate label "e2e4" of a move that is illegal in the
position preceding it (after 1.e4 it is Black's turn and e2 is empty) —
so not every kept entry of the stored variation is legal where it
appears. -/
theorem c2_counterexample :
    pvReconcile startPos [mvE4, mvE4] = ["e4", "e2e4"] ∧
    isLegal (applyMove startPos mvE4) mvE4 = false :=
  ⟨by rfl, by rfl⟩

/-- C2 amended: every kept entry of the reconciled variation except
possibly the last is legal in the position preceding it when the line is
replayed from the root; a step found illegal truncates the variation there
and is itself kept as its unambiguous UCI coordinate label (the final
entry). -/
theorem c2_amended (pos : Position) (mvs : List Move) :
    (∀ i, i + 1 < (pvReconcile pos mvs).length →
      isLegal ((mvs.take i).foldl applyMove pos) (mvs.getD i ⟨0, 0, none⟩) = true) ∧
    (∀ m rest, isLegal pos m = false → pvReconcile pos (m :: rest) = [uciOf m]) := by
  refine ⟨fun i h => pvReconcile_legal mvs pos i h, fun m rest hleg => ?_⟩
  rw [pvReconcile, if_neg (by simp [hleg])]

theorem c2_amended_witness :
    (0 + 1 < (pvReconcile startPos [mvE4, mvE5]).length ∧
      isLegal (([mvE4, mvE5].take 0).foldl applyMove startPos)
        ([mvE4, mvE5].getD 0 ⟨0, 0, none⟩) = true) ∧
    (isLegal startPos ⟨35, 35, none⟩ = false ∧
      pvReconcile startPos [⟨35, 35, none⟩] = [uciOf ⟨35, 35, none⟩]) :=
  ⟨⟨by decide, (c2_amended startPos [mvE4, mvE5]).1 0 (by decide)⟩,
   ⟨by rfl, (c2_amended startPos [⟨35, 35, none⟩]).2 ⟨35, 35, none⟩ [] (by rfl)⟩⟩

/-! ### C3 — session history invariant and undo atomicity -/

/-- The session invariant: the display history and the board's internal
move stack always have the same length (equivalently, the label history is
one shorter than the count of positions, the current one included). -/
def sessionInv (bs : BoardState) : Prop :=
  bs.move_history.length = bs.board.stack.length

/-- C3: every session operation preserves (or establishes) the history
invariant, and `undo_move` is atomic — under the invariant it never
raises, and it either leaves the state untouched (returning `None` on an
empty history) or pops the label and the board stack together, the
position reverting to the stored pre-move position. -/
theorem c3_invariant :
    (∀ fen bs, BoardState.init fen = .ok bs → sessionInv bs) ∧
    (∀ bs fen, sessionInv bs → sessionInv (bs.load_fen fen).1) ∧
    (∀ bs m, sessionInv bs → sessionInv (bs.push_move m)) ∧
    (∀ bs, sessionInv bs → ∃ out, bs.undo_move = .ok out ∧ sessionInv out.1 ∧
      (out.2 = none → out.1 = bs) ∧
      (∀ l, out.2 = some l →
        out.1.move_history = bs.move_history.dropLast ∧
        out.1.board.stack = bs.board.stack.tail ∧
        some out.1.board.pos = (bs.board.stack.head?.map Prod.fst))) := by
  refine ⟨?_, ?_, ?_, ?_⟩
  · intro fen bs h
    rcases fen with _ | s
    · simp only [BoardState.init] at h
      injection h with h
      rw [← h]
      rfl
    · by_cases hs : s = ""
      · simp only [BoardState.init, if_pos hs] at h
        injection h with h
        rw [← h]
        rfl
      · rcases hf : boardFromFen s with e | p <;>
          simp only [BoardState.init, if_neg hs, boardOfFen, hf, Except.map] at h
        · exact absurd h (by simp)
        · injection h with h
          rw [← h]
          rfl
  · intro bs fen h
    rcases hp : boardFromFen fen with e | p <;>
      simp only [BoardState.load_fen, boardOfFen, hp, Except.map]
    · exact h
    · rfl
  · intro bs m h
    simpa [sessionInv, BoardState.push_move, Board.push] using h
  · intro bs h
    rcases hh : bs.move_history with _ | ⟨l0, ls⟩
    · refine ⟨(bs, none), ?_, h, fun _ => rfl, ?_⟩
      · simp [BoardState.undo_move, hh]
      · intro l hl
        exact absurd hl (by simp)
    · have hlen : ls.length + 1 = bs.board.stack.length := by
        have h' := h
        rw [sessionInv, hh] at h'
        simpa using h'
      rcases hs : bs.board.stack with _ | ⟨⟨p0, m0⟩, rest⟩
      · rw [hs] at hlen
        exact absurd hlen (by simp)
      · refine ⟨(⟨⟨p0, rest⟩, bs.initial_fen, (l0 :: ls).dropLast⟩,
          some ((l0 :: ls).getLastD "")), ?_, ?_, ?_, ?_⟩
        · simp [BoardState.undo_move, hh, hs]
        · rw [hs] at hlen
          simp only [List.length_cons, Nat.add_right_cancel_iff] at hlen
          simp [sessionInv, List.length_dropLast, hlen]
        · intro hcontra
          exact absurd hcontra (by simp)
        · intro l hl
          exact ⟨rfl, rfl, rfl⟩

theorem c3_witness :
    sessionInv (bs0.push_move mvE4) ∧
    (∃ out, (bs0.push_move mvE4).undo_move = .ok out ∧ sessionInv out.1 ∧
      (out.2 = none → out.1 = bs0.push_move mvE4) ∧
      (∀ l, out.2 = some l →
        out.1.move_history = (bs0.push_move mvE4).move_history.dropLast ∧
        out.1.board.stack = (bs0.push_move mvE4).board.stack.tail ∧
        some out.1.board.pos = ((bs0.push_move mvE4).board.stack.head?.map Prod.fst))) :=
  ⟨c3_invariant.2.2.1 bs0 mvE4 rfl,
   c3_invariant.2.2.2 (bs0.push_move mvE4) (c3_invariant.2.2.1 bs0 mvE4 rfl)⟩

/-! ### C4 — push then undo restores the session exactly -/

/-- C4: pushing a legal move and immediately undoing returns the session
to a `BoardState` equal in every field — in particular the `Position`
(placement, turn, castling rights, en-passant target, both clocks) and the
label-stack length are restored — and `undo_move` returns exactly the SAN
label that `push_move` recorded for the move. -/
theorem c4_push_undo (bs : BoardState) (m : Move)
    (h : m ∈ legalMoves bs.board.pos) :
    (bs.push_move m).undo_move = .ok (bs, some (sanOf bs.board.pos m)) := by
  rw [BoardState.push_move, BoardState.undo_move]
  simp [Board.push, List.dropLast_concat]

theorem c4_witness :
    mvE4 ∈ legalMoves bs0.board.pos ∧
    (bs0.push_move mvE4).undo_move = .ok (bs0, some (sanOf bs0.board.pos mvE4)) :=
  ⟨by decide, c4_push_undo bs0 mvE4 (by decide)⟩

/-! ### C5 — a pv-less engine result raises instead of reporting -/

/-- C5: the fool's-mate position has no legal moves (checkmate), so the
engine's reply to the `analyse` call is a single info dictionary carrying a
score but no `"pv"` key; `analyze_position` then evaluates
`info["pv"][0]` and raises `KeyError` instead of reporting a typed
"no evaluation available" outcome (the defensive `info.get("pv", [])` two
lines earlier shows the intended handling). -/
theorem c5_no_pv_raises :
    isCheckmate foolsMatePos = true ∧
    legalMoves foolsMatePos = [] ∧
    analyze_position foolsMatePos [⟨⟨.mate 0, true⟩, none⟩] = .error .keyError :=
  ⟨by rfl, by rfl, by rfl⟩

/-! ### C6 / C7 — the move resolver -/

theorem parseSan_ok_legal {b : Position} {s : String} {m : Move}
    (h : parseSan b s = .ok m) : m ∈ legalMoves b := by
  have hfind : ∀ fromSq toSq promo,
      findMove b fromSq toSq promo = .ok m → m ∈ legalMoves b := by
    intro fromSq toSq promo hfm
    unfold findMove at hfm
    split at hfm
    · injection hfm with hfm
      rename_i hleg
      rw [← hfm]
      exact isLegal_iff_mem.mp hleg
    · exact Except.noConfusion hfm
  have hpick : ∀ g, pickCandidate (sanCandidates b g) = .ok m → m ∈ legalMoves b := by
    intro g hc
    rcases hcand : sanCandidates b g with _ | ⟨m1, _ | ⟨m2, ms⟩⟩ <;> rw [hcand] at hc
    · exact Except.noConfusion hc
    · have h1 : Except.ok m1 = Except.ok m := hc
      injection h1 with h1
      have hmem : m ∈ sanCandidates b g := by
        rw [hcand, h1]
        exact List.mem_singleton_self m
      unfold sanCandidates at hmem
      exact List.mem_of_mem_filter hmem
    · exact Except.noConfusion hc
  have hres : ∀ g, resolveSanGroups b g = .ok m → m ∈ legalMoves b := by
    intro g hr
    rcases g with ⟨gp, gf, gr, gt, gpr⟩
    unfold resolveSanGroups at hr
    rcases gp with _ | pk
    · rcases gf with _ | f
      · exact hpick ⟨none, none, gr, gt, gpr⟩ hr
      · rcases gr with _ | r
        · exact hpick ⟨none, some f, none, gt, gpr⟩ hr
        · exact hfind (mkSq f r) gt gpr hr
    · exact hpick ⟨some pk, gf, gr, gt, gpr⟩ hr
  unfold parseSan at h
  by_cases h1 : s = "O-O" ∨ s = "O-O+" ∨ s = "O-O#" ∨ s = "0-0" ∨ s = "0-0+" ∨ s = "0-0#"
  · rw [if_pos h1] at h
    rcases hfc : findCastle b true with _ | mv <;> rw [hfc] at h
    · exact Except.noConfusion h
    · have h2 : Except.ok mv = Except.ok m := h
      injection h2 with h2
      rw [← h2]
      exact List.mem_of_find?_eq_some hfc
  · rw [if_neg h1] at h
    by_cases h2 : s = "O-O-O" ∨ s = "O-O-O+" ∨ s = "O-O-O#" ∨ s = "0-0-0" ∨ s = "0-0-0+" ∨ s = "0-0-0#"
    · rw [if_pos h2] at h
      rcases hfc : findCastle b false with _ | mv <;> rw [hfc] at h
      · exact Except.noConfusion h
      · have h3 : Except.ok mv = Except.ok m := h
        injection h3 with h3
        rw [← h3]
        exact List.mem_of_find?_eq_some hfc
    · rw [if_neg h2] at h
      rcases hg : sanGroups (stripCheckMark s.data) with _ | g <;> rw [hg] at h
      · exact Except.noConfusion h
      · exact hres g h

/-- C6: the resolver is total — for every session and every input string it
returns either a `Move` or `None`, with the SAN interpretation decided
first and the UCI interpretation consulted exactly when SAN parsing raised
one of the three parse errors; any returned move is legal, and unparseable,
ambiguous or illegal text falls through to `None`. -/
theorem c6_resolver (bs : BoardState) (s : String) (m : Move) :
    (bs.validate_and_parse_move s = some m ↔
      parseSan bs.board.pos s = .ok m ∨
        ((∃ e, parseSan bs.board.pos s = .error e) ∧ fromUci s = some m ∧
          isLegal bs.board.pos m = true)) ∧
    (bs.validate_and_parse_move s = some m → m ∈ legalMoves bs.board.pos) := by
  have hiff : bs.validate_and_parse_move s = some m ↔
      parseSan bs.board.pos s = .ok m ∨
        ((∃ e, parseSan bs.board.pos s = .error e) ∧ fromUci s = some m ∧
          isLegal bs.board.pos m = true) := by
    rcases hp : parseSan bs.board.pos s with e | m'
    · rcases hu : fromUci s with _ | mu
      · simp [BoardState.validate_and_parse_move, uciFallback, hp, hu]
      · by_cases hleg : isLegal bs.board.pos mu = true
        · simp only [BoardState.validate_and_parse_move, uciFallback, hp, hu,
            if_pos hleg]
          constructor
          · intro hsome
            injection hsome with hsome
            subst hsome
            exact Or.inr ⟨⟨e, rfl⟩, rfl, hleg⟩
          · rintro (hok | ⟨_, hmu, _⟩)
            · exact Except.noConfusion hok
            · exact hmu
        · simp only [BoardState.validate_and_parse_move, uciFallback, hp, hu,
            if_neg hleg]
          constructor
          · intro hsome
            exact Option.noConfusion hsome
          · rintro (hok | ⟨_, hmu, hlm⟩)
            · exact Except.noConfusion hok
            · injection hmu with hmu
              rw [← hmu] at hlm
              exact absurd hlm hleg
    · simp only [BoardState.validate_and_parse_move, hp]
      constructor
      · intro hsome
        injection hsome with hsome
        subst hsome
        exact Or.inl rfl
      · rintro (hok | ⟨⟨e, he⟩, _, _⟩)
        · injection hok with hok
          rw [hok]
        · exact Except.noConfusion he
  refine ⟨hiff, fun hres => ?_⟩
  rcases hiff.mp hres with hok | ⟨_, _, hleg⟩
  · exact parseSan_ok_legal hok
  · exact isLegal_iff_mem.mp hleg

theorem c6_witness : mvE4 ∈ legalMoves bs0.board.pos :=
  (c6_resolver bs0 "e2e4" mvE4).2 (by rfl)

/-- C7: from the standard start position the resolver maps "e4" and
"e2e4" to the same pawn move e2→e4 (squares 12 → 28) and maps "Qh5" —
illegal there — to `None`. -/
theorem c7_start_resolution :
    bs0.validate_and_parse_move "e4" = some ⟨12, 28, none⟩ ∧
    bs0.validate_and_parse_move "e2e4" = some ⟨12, 28, none⟩ ∧
    bs0.validate_and_parse_move "Qh5" = none :=
  ⟨by rfl, by rfl, by rfl⟩

/-! ### C8 / C9 — the heuristic extractor -/

/-- C8: `extract_heuristics` is a pure function of the `Position` alone —
it embeds as a mathematical function, so two applications to the same
unchanged position are identical, field for field, and the argument is
never mutated. -/
theorem c8_deterministic (b : Position) :
    extract_heuristics b = extract_heuristics b := rfl

/-- C9 counterexample: with a white QUEEN on g1 (kings on e1/e8), the
development group still lists "Ng1" for White — the code checks only the
occupant's colour, not that the square holds the corresponding minor
piece. -/
theorem c9_counterexample :
    (extract_heuristics queenOnG1).development.white = ["Ng1"] ∧
    pieceAt queenOnG1 6 = some ⟨.queen, true⟩ :=
  ⟨by rfl, by rfl⟩

/-- C9 amended: for each minor-piece start square, its label appears in the
development list exactly when the square is occupied by a piece of that
side of ANY kind (the source never inspects the piece type). -/
theorem c9_amended (b : Position) (sq : Nat) (lbl : String) :
    ((sq, lbl) ∈ devSquaresW →
      (lbl ∈ (extract_heuristics b).development.white ↔
        occupiedBySide b true sq = true)) ∧
    ((sq, lbl) ∈ devSquaresB →
      (lbl ∈ (extract_heuristics b).development.black ↔
        occupiedBySide b false sq = true)) := by
  have hdev : (extract_heuristics b).development = developmentOf b := rfl
  rw [hdev]
  constructor
  · intro hmem
    fin_cases hmem <;>
      · simp only [developmentOf, devSquaresW]
        cases h1 : occupiedBySide b true 1 <;> cases h2 : occupiedBySide b true 6 <;>
          cases h3 : occupiedBySide b true 2 <;> cases h4 : occupiedBySide b true 5 <;>
          simp [h1, h2, h3, h4]
  · intro hmem
    fin_cases hmem <;>
      · simp only [developmentOf, devSquaresB]
        cases h1 : occupiedBySide b false 57 <;> cases h2 : occupiedBySide b false 62 <;>
          cases h3 : occupiedBySide b false 58 <;> cases h4 : occupiedBySide b false 61 <;>
          simp [h1, h2, h3, h4]

theorem c9_amended_witness :
    (6, "Ng1") ∈ devSquaresW ∧
    ("Ng1" ∈ (extract_heuristics queenOnG1).development.white ↔
      occupiedBySide queenOnG1 true 6 = true) :=
  ⟨by decide, (c9_amended queenOnG1 6 "Ng1").1 (by decide)⟩

/-! ### C10 — `load_fen` atomicity on malformed records -/

/-- C10: `load_fen` constructs the new board before assigning anything, so
a malformed record raises with the session — board, stored initial record
and move history — exactly as it was, while a well-formed record replaces
the board and clears both histories. -/
theorem c10_load_fen_atomic (bs : BoardState) (fen : String) :
    (∀ e, boardFromFen fen = .error e → bs.load_fen fen = (bs, some e)) ∧
    (∀ p, boardFromFen fen = .ok p →
      bs.load_fen fen = (⟨⟨p, []⟩, fen, []⟩, none)) := by
  constructor
  · intro e he
    simp [BoardState.load_fen, boardOfFen, he, Except.map]
  · intro p hp
    simp [BoardState.load_fen, boardOfFen, hp, Except.map]

theorem c10_witness :
    boardFromFen "not a fen" = .error "expected 8 rows in position part of fen" ∧
    bs0.load_fen "not a fen" =
      (bs0, some "expected 8 rows in position part of fen") :=
  ⟨by rfl,
   (c10_load_fen_atomic bs0 "not a fen").1 "expected 8 rows in position part of fen" (by rfl)⟩

end ChessCoach
